import Mathlib

/-!
Verification development for the Teachify backend core: the structured-output
recovery pipeline (`contentGenerator.ts`), the resource search cache
(`resourceService.ts`), the resource/content link transaction
(`resourceLinkService.ts`) and the content version ledger (`VersionService`).

JavaScript strings are modelled as `List Char` / `String`; regular-expression
replacements from the source are modelled as explicit left-to-right scanners
with the same leftmost-match semantics; `JSON.parse` is modelled as a
fuel-based total parser `parseJson` returning `Option Json`.
-/

namespace Teachify

/-- JSON values as produced by `JSON.parse`.  A number is kept as the exact
decimal `mant / 10 ^ dec` read from the text (JavaScript float rounding is
irrelevant to the claims below). -/
inductive Json where
  | null : Json
  | bool : Bool → Json
  | num (mant : Int) (dec : Nat) : Json
  | str : String → Json
  | arr : List Json → Json
  | obj : List (String × Json) → Json

/-- JSON whitespace accepted by `JSON.parse` between tokens. -/
def isJsonWs (c : Char) : Bool :=
  c = ' ' || c = '\t' || c = '\n' || c = '\r'

/-- Whitespace class of the JavaScript regex `\s` (the ASCII part; the
source strings the claims exercise contain no exotic Unicode spaces). -/
def isJsWs (c : Char) : Bool :=
  c = ' ' || c = '\t' || c = '\n' || c = '\r' || c = '\x0b' || c = '\x0c'

def skipWs (cs : List Char) : List Char := cs.dropWhile isJsonWs

def hexVal (c : Char) : Option Nat :=
  if '0' ≤ c ∧ c ≤ '9' then some (c.toNat - '0'.toNat)
  else if 'a' ≤ c ∧ c ≤ 'f' then some (c.toNat - 'a'.toNat + 10)
  else if 'A' ≤ c ∧ c ≤ 'F' then some (c.toNat - 'A'.toNat + 10)
  else none

/-- Body of a JSON string literal after the opening quote: resolves escape
sequences, rejects raw control characters, returns the decoded characters
and the remainder after the closing quote. -/
def parseStringBody : List Char → Option (List Char × List Char)
  | [] => none
  | '"' :: rest => some ([], rest)
  | '\\' :: 'u' :: h1 :: h2 :: h3 :: h4 :: rest => do
    let a ← hexVal h1; let b ← hexVal h2; let c ← hexVal h3; let d ← hexVal h4
    let (s, r) ← parseStringBody rest
    pure (Char.ofNat (((a * 16 + b) * 16 + c) * 16 + d) :: s, r)
  | '\\' :: e :: rest => do
    let c ← match e with
      | '"' => some '"'
      | '\\' => some '\\'
      | '/' => some '/'
      | 'b' => some '\x08'
      | 'f' => some '\x0c'
      | 'n' => some '\n'
      | 'r' => some '\r'
      | 't' => some '\t'
      | _ => none
    let (s, r) ← parseStringBody rest
    pure (c :: s, r)
  | c :: rest =>
    if c.toNat < 32 then none
    else do
      let (s, r) ← parseStringBody rest
      pure (c :: s, r)

def digitsToNat (ds : List Char) : Nat :=
  ds.foldl (fun n c => n * 10 + (c.toNat - '0'.toNat)) 0

/-- JSON number grammar: `-?(0|[1-9][0-9]*)(\.[0-9]+)?([eE][+-]?[0-9]+)?`.
Returns the decimal pair `(mant, dec)` standing for `mant / 10 ^ dec`. -/
def parseNumber (cs : List Char) : Option ((Int × Nat) × List Char) :=
  let (sign, cs₁) : Int × List Char :=
    match cs with
    | '-' :: r => (-1, r)
    | _ => (1, cs)
  match cs₁ with
  | [] => none
  | c :: _ =>
    if ¬ c.isDigit then none
    else
      let intDigits := cs₁.takeWhile Char.isDigit
      -- a leading zero must stand alone
      if intDigits.length > 1 ∧ intDigits.headI = '0' then none
      else
        let cs₂ := cs₁.drop intDigits.length
        let (fracDigits, cs₃) : List Char × List Char :=
          match cs₂ with
          | '.' :: r => (r.takeWhile Char.isDigit, r.drop (r.takeWhile Char.isDigit).length)
          | _ => ([], cs₂)
        if cs₂ ≠ cs₃ ∧ fracDigits = [] then none
        else
          let parseExp : List Char → Option (Int × List Char) := fun l =>
            let (esign, l₁) : Int × List Char :=
              match l with
              | '+' :: r => (1, r)
              | '-' :: r => (-1, r)
              | _ => (1, l)
            let eds := l₁.takeWhile Char.isDigit
            if eds = [] then none
            else some (esign * (digitsToNat eds : Int), l₁.drop eds.length)
          let mant : Int :=
            sign * ((digitsToNat intDigits : Int) * 10 ^ fracDigits.length +
              (digitsToNat fracDigits : Int))
          let withExp : Int → (Int × Nat) := fun e =>
            if e ≥ 0 then (mant * 10 ^ e.toNat, fracDigits.length)
            else (mant, fracDigits.length + (-e).toNat)
          match cs₃ with
          | 'e' :: r =>
            match parseExp r with
            | some (e, rest) => some (withExp e, rest)
            | none => none
          | 'E' :: r =>
            match parseExp r with
            | some (e, rest) => some (withExp e, rest)
            | none => none
          | _ => some ((mant, fracDigits.length), cs₃)

/-- Fuel-based JSON value parser.  `mode = 0` parses one value,
`mode = 1` parses the remaining elements of an array (accumulator `accA`),
`mode = 2` parses the remaining members of an object (accumulator `accO`).
Structural recursion on the fuel keeps every call kernel-computable. -/
def parseCore : Nat → Nat → List Json → List (String × Json) → List Char →
    Option (Json × List Char)
  | 0, _, _, _, _ => none
  | Nat.succ f, 0, _, _, cs =>
    match cs with
    | 'n' :: 'u' :: 'l' :: 'l' :: rest => some (Json.null, rest)
    | 't' :: 'r' :: 'u' :: 'e' :: rest => some (Json.bool true, rest)
    | 'f' :: 'a' :: 'l' :: 's' :: 'e' :: rest => some (Json.bool false, rest)
    | '"' :: rest =>
      match parseStringBody rest with
      | some (s, r) => some (Json.str ⟨s⟩, r)
      | none => none
    | '[' :: rest =>
      match skipWs rest with
      | ']' :: r => some (Json.arr [], r)
      | r => parseCore f 1 [] [] r
    | '{' :: rest =>
      match skipWs rest with
      | '}' :: r => some (Json.obj [], r)
      | r => parseCore f 2 [] [] r
    | _ =>
      match parseNumber cs with
      | some ((m, d), r) => some (Json.num m d, r)
      | none => none
  | Nat.succ f, 1, accA, _, cs =>
    match parseCore f 0 [] [] cs with
    | some (v, r) =>
      match skipWs r with
      | ',' :: r₂ => parseCore f 1 (accA ++ [v]) [] (skipWs r₂)
      | ']' :: r₂ => some (Json.arr (accA ++ [v]), r₂)
      | _ => none
    | none => none
  | Nat.succ f, _, _, accO, cs =>
    match cs with
    | '"' :: rest =>
      match parseStringBody rest with
      | some (k, r) =>
        match skipWs r with
        | ':' :: r₂ =>
          match parseCore f 0 [] [] (skipWs r₂) with
          | some (v, r₃) =>
            match skipWs r₃ with
            | ',' :: r₄ => parseCore f 2 [] (accO ++ [(⟨k⟩, v)]) (skipWs r₄)
            | '}' :: r₄ => some (Json.obj (accO ++ [(⟨k⟩, v)]), r₄)
            | _ => none
          | none => none
        | _ => none
      | none => none
    | _ => none

/-- Model of `JSON.parse`: `none` is a thrown `SyntaxError`. -/
def parseJson (s : String) : Option Json :=
  match parseCore (2 * s.data.length + 8) 0 [] [] (skipWs s.data) with
  | some (v, rest) => if skipWs rest = [] then some v else none
  | none => none

/-! ## String scanners for the regex replacements of `contentGenerator.ts`

Each global-`replace` call of the source is modelled as a left-to-right
scanner with the regex's leftmost-match semantics: on a failed match attempt
the scan resumes one position later, which for these patterns means at the
next occurrence of the anchoring character. -/

/-- Split a character list at the first occurrence of `c`:
`some (before, after)` with the occurrence itself dropped. -/
def splitAtChar (c : Char) : List Char → Option (List Char × List Char)
  | [] => none
  | x :: r =>
    if x = c then some ([], r)
    else match splitAtChar c r with
      | some (b, a) => some (x :: b, a)
      | none => none

/-- `true` when `pat` occurs as a contiguous sublist (JS `String.includes`). -/
def containsSub (pat : List Char) (cs : List Char) : Bool :=
  cs.tails.any fun t => pat.isPrefixOf t

/-- Scan after an opening quote up to the first `"`, `'\n'` or end of input. -/
inductive QuoteScan where
  | closed (content rest : List Char) : QuoteScan
  | newline (content rest : List Char) : QuoteScan
  | ended (content : List Char) : QuoteScan

def scanQuoteNl : List Char → QuoteScan
  | [] => .ended []
  | '"' :: r => .closed [] r
  | '\n' :: r => .newline [] r
  | c :: r =>
    match scanQuoteNl r with
    | .closed cs rs => .closed (c :: cs) rs
    | .newline cs rs => .newline (c :: cs) rs
    | .ended cs => .ended (c :: cs)

/-- `cleanedJson.replace(/:\s*"([^"]*?)(?:\n|$)/g, ': "$1",\n')`
(source line 103): close a string left unterminated at a newline or at the
end of the text, normalising the whitespace after the colon and appending
a comma. -/
def fixUntermCore : Nat → List Char → List Char
  | 0, cs => cs
  | Nat.succ f, cs =>
    match cs with
    | [] => []
    | ':' :: rest =>
      let ws := rest.takeWhile isJsWs
      match rest.drop ws.length with
      | '"' :: r₂ =>
        match scanQuoteNl r₂ with
        | .newline content r₃ =>
          ':' :: ' ' :: '"' :: (content ++ '"' :: ',' :: '\n' :: fixUntermCore f r₃)
        | .ended content =>
          ':' :: ' ' :: '"' :: (content ++ ['"', ',', '\n'])
        | .closed _ _ => ':' :: fixUntermCore f rest
      | _ => ':' :: fixUntermCore f rest
    | c :: rest => c :: fixUntermCore f rest

def fixUnterminatedStrings (s : String) : String :=
  ⟨fixUntermCore s.data.length s.data⟩

def isWordChar (c : Char) : Bool := c.isAlphanum || c = '_'

/-- `cleanedJson.replace(/(\s*)(\w+)(\s*):/g, '$1"$2"$3:')` (source line 106):
wrap in quotes the run of word characters that immediately precedes a colon
(modulo whitespace). -/
def quotePropsCore : Nat → List Char → List Char
  | 0, cs => cs
  | Nat.succ f, cs =>
    match splitAtChar ':' cs with
    | none => cs
    | some (before, after) =>
      let rb := before.reverse
      let t1 := rb.takeWhile isJsWs
      let rb₁ := rb.drop t1.length
      let w := rb₁.takeWhile isWordChar
      if w = [] then before ++ ':' :: quotePropsCore f after
      else
        let rb₂ := rb₁.drop w.length
        let t2 := rb₂.takeWhile isJsWs
        let pre := (rb₂.drop t2.length).reverse
        pre ++ t2.reverse ++ '"' :: w.reverse ++ '"' :: t1.reverse ++
          ':' :: quotePropsCore f after

def quotePropertyNames (s : String) : String :=
  ⟨quotePropsCore s.data.length s.data⟩

/-- `cleanedJson.replace(/,(\s*[\]}])/g, '$1')` (source line 109): drop a
comma standing (modulo whitespace) directly before a closing bracket. -/
def fixTrailingCore : Nat → List Char → List Char
  | 0, cs => cs
  | Nat.succ f, cs =>
    match splitAtChar ',' cs with
    | none => cs
    | some (before, after) =>
      let ws := after.takeWhile isJsWs
      match after.drop ws.length with
      | c :: r₂ =>
        if c = ']' ∨ c = '}' then before ++ ws ++ c :: fixTrailingCore f r₂
        else before ++ ',' :: fixTrailingCore f after
      | [] => before ++ ',' :: fixTrailingCore f after

def fixTrailingCommas (s : String) : String :=
  ⟨fixTrailingCore s.data.length s.data⟩

/-- `cleanedJson.replace(/("[^"]*":\s*"[^"]*"(?:\s*\n)?)\s*"/g, '$1,"')`
(source line 112): insert a comma between two adjacent quoted key-value
pairs.  The optional `(?:\s*\n)?` keeps the whitespace up to the last
newline; the trailing `\s*` outside the group is dropped. -/
def fixMissingCore : Nat → List Char → List Char
  | 0, cs => cs
  | Nat.succ f, cs =>
    match splitAtChar '"' cs with
    | none => cs
    | some (before, after) =>
      let k := after.takeWhile (· ≠ '"')
      let tail :=
        match after.drop k.length with
        | '"' :: ':' :: r₂ =>
          let ws₂ := r₂.takeWhile isJsWs
          match r₂.drop ws₂.length with
          | '"' :: r₃ =>
            let v := r₃.takeWhile (· ≠ '"')
            match r₃.drop v.length with
            | '"' :: r₄ =>
              let w := r₄.takeWhile isJsWs
              match r₄.drop w.length with
              | '"' :: r₅ =>
                let keptWs := (w.reverse.dropWhile (· ≠ '\n')).reverse
                some ('"' :: k ++ '"' :: ':' :: ws₂ ++ '"' :: v ++ '"' ::
                  keptWs ++ ',' :: '"' :: fixMissingCore f r₅)
              | _ => none
            | _ => none
          | _ => none
        | _ => none
      match tail with
      | some out => before ++ out
      | none => before ++ '"' :: fixMissingCore f after

def fixMissingCommas (s : String) : String :=
  ⟨fixMissingCore s.data.length s.data⟩

def countChar (c : Char) (s : String) : Nat :=
  s.data.countP (· = c)

/-- Lines 115-119 of the source: append a single `'}'` when the openers
outnumber the closers (one brace regardless of the size of the deficit,
and square brackets are never balanced). -/
def balanceBraces (s : String) : String :=
  if countChar '{' s > countChar '}' s then s ++ "\x7d" else s

/-! ## `extractJsonFromText` (source lines 29-51) -/

def tripleTick : List Char := ['`', '`', '`']

/-- Split at the first occurrence of the contiguous pattern `pat`:
`some (before, after)` with the pattern occurrence dropped. -/
def splitAtSub (pat : List Char) : List Char → Option (List Char × List Char)
  | [] => if pat = [] then some ([], []) else none
  | c :: r =>
    if pat.isPrefixOf (c :: r) then some ([], (c :: r).drop pat.length)
    else match splitAtSub pat r with
      | some (b, a) => some (c :: b, a)
      | none => none

def dropTrailWs (cs : List Char) : List Char :=
  (cs.reverse.dropWhile isJsWs).reverse

def trimJs (cs : List Char) : List Char :=
  dropTrailWs (cs.dropWhile isJsWs)

/-- The group captured by `/```(?:json)?\s*([\s\S]*?)\s*```/` when the
text contains a fenced block, `none` when the regex does not match. -/
def fenceGroup (cs : List Char) : Option (List Char) :=
  match splitAtSub tripleTick cs with
  | none => none
  | some (_, after) =>
    let a₁ :=
      match after with
      | 'j' :: 's' :: 'o' :: 'n' :: r => r
      | _ => after
    let a₂ := a₁.dropWhile isJsWs
    match splitAtSub tripleTick a₂ with
    | none => none
    | some (interior, _) => some (dropTrailWs interior)

/-- The span captured by `/\{[\s\S]*\}/`: first `'{'` through last `'}'`. -/
def braceSpan (cs : List Char) : Option (List Char) :=
  match splitAtChar '{' cs with
  | none => none
  | some (_, after) =>
    let revTail := after.reverse.dropWhile (· ≠ '\x7d')
    match revTail with
    | '\x7d' :: mid => some ('\x7b' :: mid.reverse ++ ['\x7d'])
    | _ => none

/-- `extractJsonFromText` (source lines 29-51). -/
def extractJsonFromText (text : String) : String :=
  let cs := text.data
  let braced : String :=
    match braceSpan cs with
    | some sp => ⟨sp⟩
    | none => text
  if containsSub tripleTick cs then
    match fenceGroup cs with
    | some g => if g = [] then braced else ⟨trimJs g⟩
    | none => braced
  else braced

/-! ## `createContentFromText` (source lines 54-92) -/

/-- `cleanContent.replace(/```json|```/g, '')`. -/
def removeFencesCore : Nat → List Char → List Char
  | 0, cs => cs
  | Nat.succ f, cs =>
    match cs with
    | [] => []
    | '`' :: '`' :: '`' :: rest =>
      match rest with
      | 'j' :: 's' :: 'o' :: 'n' :: r => removeFencesCore f r
      | _ => removeFencesCore f rest
    | c :: rest => c :: removeFencesCore f rest

/-- `replace(/^\s*\{\s*|\}\s*$/g, '')`: strip one leading `'{'` (with
surrounding whitespace) anchored at the start, and the last `'\x7d'`
followed only by whitespace. -/
def stripOuterBraces (cs : List Char) : List Char :=
  let s₁ :=
    let ws := cs.takeWhile isJsWs
    match cs.drop ws.length with
    | '\x7b' :: r => r.dropWhile isJsWs
    | _ => cs
  let rev := s₁.reverse
  match rev.drop (rev.takeWhile isJsWs).length with
  | '\x7d' :: r₂ => r₂.reverse
  | _ => s₁

/-- Capture group of `/"content"\s*:\s*"((?:[^"\\]|\\.)*)"/` on the raw
characters, `none` when the regex does not match. -/
def contentGroupAt : List Char → Option (List Char)
  | [] => none
  | '"' :: _ => some []
  | '\\' :: e :: r => (fun g => '\\' :: e :: g) <$> contentGroupAt r
  | '\\' :: [] => none
  | c :: r => (fun g => c :: g) <$> contentGroupAt r

def contentLit : List Char := ['"', 'c', 'o', 'n', 't', 'e', 'n', 't', '"']

def findContentGroup : List Char → Option (List Char)
  | [] => none
  | c :: rest =>
    let attempt : Option (List Char) :=
      if contentLit.isPrefixOf (c :: rest) then
        let a₁ := (c :: rest).drop contentLit.length
        let a₂ := a₁.dropWhile isJsWs
        match a₂ with
        | ':' :: r₂ =>
          match r₂.dropWhile isJsWs with
          | '"' :: r₃ => contentGroupAt r₃
          | _ => none
        | _ => none
      else none
    match attempt with
    | some g => some g
    | none => findContentGroup rest

/-- `content.replace(/\\n/g, '\n')`. -/
def unescNl : List Char → List Char
  | '\\' :: 'n' :: r => '\n' :: unescNl r
  | c :: r => c :: unescNl r
  | [] => []

/-- `content.replace(/\\"/g, '"')`. -/
def unescQuote : List Char → List Char
  | '\\' :: '"' :: r => '"' :: unescQuote r
  | c :: r => c :: unescQuote r
  | [] => []

/-- `content.replace(/\\\\/g, '\\')`. -/
def unescBackslash : List Char → List Char
  | '\\' :: '\\' :: r => '\\' :: unescBackslash r
  | c :: r => c :: unescBackslash r
  | [] => []

def contentColonLit : List Char := contentLit ++ [':']

/-- `createContentFromText` (source lines 54-92): the heuristic fallback
object built from the raw text. -/
def createContentFromText (text topic : String) : Json :=
  let clean₁ := removeFencesCore text.data.length text.data
  let clean₂ := stripOuterBraces clean₁
  let content : String :=
    if containsSub contentColonLit clean₂ then
      match findContentGroup clean₂ with
      | some g => ⟨unescBackslash (unescQuote (unescNl g))⟩
      | none => "Content for " ++ topic ++ " based on your materials."
    else ⟨clean₂.take 1000⟩
  Json.obj
    [("content", Json.str content),
     ("keyPoints", Json.arr
       [Json.str ("Key points for " ++ topic),
        Json.str "Understanding core concepts",
        Json.str "Practical applications"]),
     ("examples", Json.arr []),
     ("references", Json.arr [])]

/-! ## `safeJsonParse` (source lines 95-133) -/

/-- The repair chain of `safeJsonParse` in source order (lines 100-119):
unterminated strings, property-name quoting, trailing commas, missing
commas, then the single brace balance. -/
def repairChain (s : String) : String :=
  balanceBraces (fixMissingCommas (fixTrailingCommas
    (quotePropertyNames (fixUnterminatedStrings s))))

/-- `safeJsonParse` (source lines 95-133): extract, apply every repair,
parse once; on failure fall back to `createContentFromText` on the raw
text.  Total — the source wraps everything in `try`/`catch`. -/
def safeJsonParse (text topic : String) : Json :=
  match parseJson (repairChain (extractJsonFromText text)) with
  | some v => v
  | none => createContentFromText text topic

/-- Modelled from the spec: the repair schedule that claim C2 describes —
transformations in the order (a) quote bare keys, (b) close unterminated
strings, (c) remove trailing commas, (d) insert missing commas, (e) balance
braces, re-attempting a parse after each individual repair and stopping at
the first success, with the heuristic fallback only after all five fail. -/
def safeJsonParseClaimOrder (text topic : String) : Json :=
  let s₀ := extractJsonFromText text
  match parseJson s₀ with
  | some v => v
  | none =>
    let s₁ := quotePropertyNames s₀
    match parseJson s₁ with
    | some v => v
    | none =>
      let s₂ := fixUnterminatedStrings s₁
      match parseJson s₂ with
      | some v => v
      | none =>
        let s₃ := fixTrailingCommas s₂
        match parseJson s₃ with
        | some v => v
        | none =>
          let s₄ := fixMissingCommas s₃
          match parseJson s₄ with
          | some v => v
          | none =>
            let s₅ := balanceBraces s₄
            match parseJson s₅ with
            | some v => v
            | none => createContentFromText text topic

/-- Required-field contract of the content shape (claim C1): a string
`content`, a non-empty `keyPoints` list, and `examples`/`references`
lists. -/
def isContentShape : Json → Bool
  | Json.obj fields =>
    let get (k : String) : Option Json := (fields.find? (·.1 = k)).map (·.2)
    (match get "content" with | some (Json.str _) => true | _ => false) &&
    (match get "keyPoints" with | some (Json.arr l) => !l.isEmpty | _ => false) &&
    (match get "examples" with | some (Json.arr _) => true | _ => false) &&
    (match get "references" with | some (Json.arr _) => true | _ => false)
  | _ => false

/-! ## `generateLectureOutline` (source lines 216-255)

The generative-model call is the external collaborator: its outcome is a
parameter — `none` when `model.generateContent`/`response.text()` threw,
`some text` when it returned `text`. -/

structure LectureOutline where
  title : String
  sections : Json
  keyPoints : Json
  examples : Json
  exercises : Json

/-- JavaScript truthiness on JSON values (for `parsedResponse.x || []`). -/
def jsTruthy : Json → Bool
  | Json.null => false
  | Json.bool b => b
  | Json.num m _ => m ≠ 0
  | Json.str s => s ≠ ""
  | Json.arr _ => true
  | Json.obj _ => true

/-- `parsed.f || []`: the field when present and truthy, else `[]`. -/
def fieldOrEmptyList (parsed : Json) (k : String) : Json :=
  let v : Option Json :=
    match parsed with
    | Json.obj fields => (fields.find? (·.1 = k)).map (·.2)
    | _ => none
  match v with
  | some x => if jsTruthy x then x else Json.arr []
  | none => Json.arr []

/-- `generateLectureOutline` (source lines 216-255).  `modelResponse` is
the outcome of the model call; `.error` is the rethrown
`'Failed to generate lecture outline'`. -/
def generateLectureOutline (modelResponse : Option String)
    (title _context : String) : Except String LectureOutline :=
  match modelResponse with
  | none => .error "Failed to generate lecture outline"
  | some text =>
    if text = "" then .error "Failed to generate lecture outline"
    else
      let parsed := safeJsonParse text title
      .ok { title := title
            sections := fieldOrEmptyList parsed "sections"
            keyPoints := fieldOrEmptyList parsed "keyPoints"
            examples := fieldOrEmptyList parsed "examples"
            exercises := fieldOrEmptyList parsed "exercises" }

/-! ## `ResourceService` (`resourceService.ts`)

The caller-supplied `topics` array is mutated in place by
`Array.prototype.sort` inside `generateCacheKey`; the embedding threads the
parameter record explicitly, so every function that the source lets mutate
`params` returns the updated record alongside its result. -/

structure Resource where
  id : String
  title : String
  description : String
  url : String
  rtype : String
  source : String
deriving DecidableEq, Repr

structure CacheEntry where
  key : String
  resources : List Resource
  timestamp : Int
deriving DecidableEq, Repr

structure SearchParams where
  query : String
  topics : List String
  rtype : Option String
  limit : Option Nat
  syllabusText : Option String
  useRealUrls : Bool
deriving DecidableEq, Repr

def CACHE_EXPIRY : Int := 5 * 60 * 1000

def MAX_CACHE_SIZE : Nat := 20

/-- String order of the default `Array.prototype.sort` comparator. -/
def strLe (a b : String) : Prop := a ≤ b

instance : DecidableRel strLe := fun a b => inferInstanceAs (Decidable (a ≤ b))

instance : IsTotal String strLe := ⟨fun a b => le_total a b⟩

instance : IsTrans String strLe := ⟨fun _ _ _ => le_trans⟩

instance : IsAntisymm String strLe := ⟨fun _ _ => le_antisymm⟩

/-- `generateCacheKey` (source lines 48-56).  `topics.sort()` mutates the
caller's array: the sorted record is returned with the key. -/
def generateCacheKey (params : SearchParams) : String × SearchParams :=
  let sorted := List.insertionSort strLe params.topics
  let topicsKey := String.intercalate "," sorted
  let queryKey := params.query
  let typeKey := (params.rtype.filter (· ≠ "")).getD "all"
  let limitKey := ((params.limit.filter (· ≠ 0)).getD 10 : Nat)
  (topicsKey ++ "|" ++ queryKey ++ "|" ++ typeKey ++ "|" ++ toString limitKey,
   { params with topics := sorted })

/-- `getCachedResult` (source lines 61-73): the first entry under the key
is returned only while younger than the TTL; the function performs no
removal, so the cache comes back unchanged. -/
def getCachedResult (cache : List CacheEntry) (params : SearchParams)
    (now : Int) : Option (List Resource) × List CacheEntry × SearchParams :=
  match cache.find? (·.key = (generateCacheKey params).1) with
  | some entry =>
    if now - entry.timestamp < CACHE_EXPIRY then
      (some entry.resources, cache, (generateCacheKey params).2)
    else (none, cache, (generateCacheKey params).2)
  | none => (none, cache, (generateCacheKey params).2)

/-- The sort comparator `(a, b) => a.timestamp - b.timestamp` of
`cacheResult`, ascending by creation time; `Array.prototype.sort` is
stable, as is `List.insertionSort`. -/
def tsLe (a b : CacheEntry) : Prop := a.timestamp ≤ b.timestamp

instance : DecidableRel tsLe := fun a b => inferInstanceAs (Decidable (a.timestamp ≤ b.timestamp))

instance : IsTotal CacheEntry tsLe := ⟨fun a b => le_total a.timestamp b.timestamp⟩

instance : IsTrans CacheEntry tsLe := ⟨fun _ _ _ => le_trans⟩

/-- `cacheResult` (source lines 78-95): drop entries under the same key,
push the new entry, and when over `MAX_CACHE_SIZE` keep the most recent
entries of the stable sort by creation timestamp (`slice(-MAX)`). -/
def cacheResult (cache : List CacheEntry) (params : SearchParams)
    (resources : List Resource) (now : Int) : List CacheEntry × SearchParams :=
  let key := (generateCacheKey params).1
  let filtered := cache.filter (·.key ≠ key)
  let pushed := filtered ++ [{ key := key, resources := resources, timestamp := now }]
  if pushed.length > MAX_CACHE_SIZE then
    let sorted := List.insertionSort tsLe pushed
    (sorted.drop (sorted.length - MAX_CACHE_SIZE), (generateCacheKey params).2)
  else (pushed, (generateCacheKey params).2)

/-- `params.topics && params.topics.length > 0 && params.syllabusText`. -/
def hasTopicsAndSyllabus (p : SearchParams) : Bool :=
  !p.topics.isEmpty && (match p.syllabusText with | some s => s ≠ "" | none => false)

/-- `findResources` (source lines 101-147).  External outcomes are
parameters: `aiSuggestions` is the list produced by
`suggestResourcesWithAI` (that method catches its own errors and returns
`[]`), `mockResources` the list from `getMockResources` (randomised).
The `.error` case models the uncaught `TypeError` thrown by
`cachedResults[0].url` on an empty cached list. -/
def findResources (params : SearchParams) (cache : List CacheEntry)
    (now : Int) (aiSuggestions mockResources : List Resource) :
    Except String (List Resource) × List CacheEntry × SearchParams :=
  let cache₀ := (getCachedResult cache params now).2.1
  let p₁ := (getCachedResult cache params now).2.2
  let fetch : Except String (List Resource) × List CacheEntry × SearchParams :=
    if hasTopicsAndSyllabus params ∧ aiSuggestions ≠ [] then
      ( .ok aiSuggestions, (cacheResult cache₀ p₁ aiSuggestions now).1,
        (cacheResult cache₀ p₁ aiSuggestions now).2)
    else
      ( .ok mockResources, (cacheResult cache₀ p₁ mockResources now).1,
        (cacheResult cache₀ p₁ mockResources now).2)
  match (getCachedResult cache params now).1 with
  | some cachedResults =>
    if params.useRealUrls then
      match cachedResults.head? with
      | none => (.error "TypeError", cache₀, p₁)
      | some r₀ =>
        if containsSub "example.com".data r₀.url.data then fetch
        else (.ok cachedResults, cache₀, p₁)
    else (.ok cachedResults, cache₀, p₁)
  | none => fetch

/-! ## `ResourceLinkService` (`resourceLinkService.ts`) and
`VersionService`

Records are stored in id-keyed association lists; the mongoose session is
modelled explicitly: saves apply to a pending copy of the store and only
`commitTransaction` publishes it, `abortTransaction` discards it.  The
storage layer's possible write failures are injected through boolean
parameters. -/

inductive LinkType where
  | primary
  | supplementary
deriving DecidableEq, Repr

structure ResourceRec where
  content : Option String
  linkType : Option LinkType
deriving DecidableEq, Repr

structure VersionSnapshot where
  title : String
  description : String
  resources : List String
  syllabusData : Option String
deriving DecidableEq, Repr

structure VersionRec where
  versionNumber : Nat
  content : VersionSnapshot
  changes : List String
  createdAt : Int
  createdBy : String
deriving DecidableEq, Repr

structure ContentRec where
  title : String
  description : String
  resources : List String
  syllabusData : Option String
  versions : List VersionRec
  currentVersion : Nat
deriving DecidableEq, Repr

structure Store where
  resources : List (String × ResourceRec)
  contents : List (String × ContentRec)
deriving DecidableEq, Repr

/-- `Types.ObjectId.isValid`: a 24-character hex string. -/
def isValidObjectId (s : String) : Bool :=
  s.length = 24 && s.data.all (fun c => c.isDigit || ('a' ≤ c ∧ c ≤ 'f') || ('A' ≤ c ∧ c ≤ 'F'))

def lookupResource (st : Store) (rid : String) : Option ResourceRec :=
  (st.resources.find? (·.1 = rid)).map (·.2)

def lookupContent (st : Store) (cid : String) : Option ContentRec :=
  (st.contents.find? (·.1 = cid)).map (·.2)

def updateResource (st : Store) (rid : String) (r : ResourceRec) : Store :=
  { st with resources := st.resources.map (fun p => if p.1 = rid then (p.1, r) else p) }

def updateContent (st : Store) (cid : String) (c : ContentRec) : Store :=
  { st with contents := st.contents.map (fun p => if p.1 = cid then (p.1, c) else p) }

def isErr {ε α : Type} : Except ε α → Bool
  | .error _ => true
  | .ok _ => false

/-- `ResourceLinkService.linkResourceToContent` (source lines 6-51).
`resourceSaveOk`/`contentSaveOk` inject storage-layer write failures; any
failure aborts the transaction, so the published store is the pre-call
store. -/
def linkResourceToContent (st : Store) (resourceId contentId : String)
    (linkType : LinkType) (resourceSaveOk contentSaveOk : Bool) :
    Except String ResourceRec × Store :=
  -- session.startTransaction(): pending state starts at the committed state
  if ¬ (isValidObjectId resourceId ∧ isValidObjectId contentId) then
    (.error "Failed to link resource: Invalid resource or content ID", st)
  else
    match lookupResource st resourceId, lookupContent st contentId with
    | some resource, some content =>
      let resource' : ResourceRec :=
        { resource with content := some contentId, linkType := some linkType }
      if ¬ resourceSaveOk then
        -- resource.save failed: abortTransaction
        (.error "Failed to link resource: resource save failed", st)
      else
        let pending₁ := updateResource st resourceId resource'
        if content.resources.contains resourceId then
          -- back-reference already present: content.save skipped, commit
          (.ok resource', pending₁)
        else if ¬ contentSaveOk then
          -- content.save failed: abortTransaction
          (.error "Failed to link resource: content save failed", st)
        else
          let content' := { content with resources := content.resources ++ [resourceId] }
          (.ok resource', updateContent pending₁ contentId content')
    | _, _ =>
      (.error "Failed to link resource: Resource or Content not found", st)

/-- JavaScript `a || b` on an optional string field (`''` is falsy). -/
def jsOrStr (o : Option String) (d : String) : String :=
  match o with
  | some s => if s = "" then d else s
  | none => d

/-- `updates.resources || content.resources || []`: arrays are always
truthy, so a present empty list is kept. -/
def jsOrList (o : Option (List String)) (d : List String) : List String :=
  o.getD d

def jsOrOptStr (o : Option String) (d : Option String) : Option String :=
  match o with
  | some s => if s = "" then d else some s
  | none => d

structure VersionUpdates where
  title : Option String
  description : Option String
  resources : Option (List String)
  syllabusData : Option String
deriving DecidableEq, Repr

/-- `VersionService.createVersion` (part_011 lines 84-125): next version
number is `versions.length + 1`; the ledger append, the
`currentVersion` pointer update and the field updates are published by the
single `content.save()`. -/
def createVersion (st : Store) (contentId userId : String)
    (updates : VersionUpdates) (changeDescription : List String) (now : Int) :
    Except String VersionRec × Store :=
  if ¬ isValidObjectId contentId then
    -- Content.findById throws a CastError on a malformed id
    (.error "Failed to create version: Cast to ObjectId failed", st)
  else
    match lookupContent st contentId with
    | none => (.error "Failed to create version: Content not found", st)
    | some content =>
      if ¬ isValidObjectId userId then
        -- new Types.ObjectId(userId) throws on a malformed id
        (.error "Failed to create version: invalid user id", st)
      else
        let newVersion : VersionRec :=
          { versionNumber := content.versions.length + 1
            content :=
              { title := jsOrStr updates.title content.title
                description := jsOrStr updates.description content.description
                resources := jsOrList updates.resources content.resources
                syllabusData := jsOrOptStr updates.syllabusData content.syllabusData }
            changes := changeDescription
            createdAt := now
            createdBy := userId }
        let content' : ContentRec :=
          { content with
            versions := content.versions ++ [newVersion]
            currentVersion := newVersion.versionNumber
            title := jsOrStr updates.title content.title
            description := jsOrStr updates.description content.description
            resources := jsOrList updates.resources content.resources
            syllabusData := jsOrOptStr updates.syllabusData content.syllabusData }
        (.ok newVersion, updateContent st contentId content')

/-! ## Theorems -/

/-- The heuristic fallback object always satisfies the content shape
contract: its `content` is a string, its `keyPoints` list has three
entries, and `examples`/`references` are (empty) lists. -/
theorem isContentShape_createContentFromText (text topic : String) :
    isContentShape (createContentFromText text topic) = true := rfl

/-- C1 (counterexample): the claim quantifies over every brace-free input,
but the brace-free input `"42"` is itself valid JSON, so `safeJsonParse`
returns the bare number `42`, which has none of the required fields of the
content shape. -/
theorem c1_counterexample :
    ("42".data.contains '\x7b' = false ∧ "42".data.contains '\x7d' = false) ∧
      isContentShape (safeJsonParse "42" "T") = false := by
  constructor
  · constructor <;> rfl
  · rfl

/-- C1 (amended): for every brace-free input on which the parse of the
repaired text fails — in particular all genuine prose — `safeJsonParse`
terminates and returns the fallback object with every required field of
the content shape populated; when the repaired text happens to parse
(e.g. a bare JSON scalar), that parsed value is returned instead. -/
theorem c1_content_shape (text topic : String)
    (_hb : text.data.contains '\x7b' = false)
    (_hc : text.data.contains '\x7d' = false)
    (hp : parseJson (repairChain (extractJsonFromText text)) = none) :
    isContentShape (safeJsonParse text topic) = true := by
  unfold safeJsonParse
  rw [hp]
  exact isContentShape_createContentFromText text topic

/-- C1 (witness): the amended theorem applied to the brace-free prose
input `"hello world"`. -/
theorem c1_content_shape_witness :
    isContentShape (safeJsonParse "hello world" "T") = true :=
  c1_content_shape "hello world" "T" rfl rfl rfl

set_option maxHeartbeats 1600000 in
/-- C2 (counterexample): on the input `{key: "x ,}"}` the schedule the
claim describes — (a) quote bare keys first, re-parsing after each repair —
stops right after step (a) with the value `{key: "x ,}"}`, while the code
runs the whole chain with a single final parse, letting the trailing-comma
repair corrupt the string value to `"x }"`; the two results differ, so the
code does not implement the claimed schedule. -/
theorem c2_counterexample :
    safeJsonParse "\x7bkey: \"x ,\x7d\"\x7d" "T" ≠
      safeJsonParseClaimOrder "\x7bkey: \"x ,\x7d\"\x7d" "T" := by
  intro h
  have h1 : safeJsonParse "\x7bkey: \"x ,\x7d\"\x7d" "T" =
      Json.obj [("key", Json.str "x \x7d")] := rfl
  have h2 : safeJsonParseClaimOrder "\x7bkey: \"x ,\x7d\"\x7d" "T" =
      Json.obj [("key", Json.str "x ,\x7d")] := rfl
  rw [h1, h2] at h
  simp at h

/-- C2 (amended): the repair stage applies the five transformations as an
ordered left-to-right fold in the order (b) close unterminated strings,
(a) quote bare keys, (c) remove trailing commas, (d) insert missing
commas, (e) append a single closing brace when openers outnumber closers —
with one parse attempt after the whole chain (no validation and no
per-repair retry), falling back to the heuristic object when that single
parse fails. -/
theorem c2_repair_schedule (text topic : String) :
    safeJsonParse text topic =
      match parseJson
          ([fixUnterminatedStrings, quotePropertyNames, fixTrailingCommas,
            fixMissingCommas, balanceBraces].foldl (fun s f => f s)
            (extractJsonFromText text)) with
      | some v => v
      | none => createContentFromText text topic := by
  simp only [List.foldl]
  rfl

set_option maxHeartbeats 1600000 in
/-- C7 (counterexample): the well-formed JSON text `{"a": "x,]"}` decodes
to `{a: "x,]"}`, but the repair chain (which the code always runs before
its single parse) deletes the comma inside the string literal, so
`safeJsonParse` returns `{a: "x]"}` — the round-trip fails. -/
theorem c7_counterexample :
    parseJson "\x7b\"a\": \"x,]\"\x7d" =
        some (Json.obj [("a", Json.str "x,]")]) ∧
      safeJsonParse "\x7b\"a\": \"x,]\"\x7d" "T" ≠
        Json.obj [("a", Json.str "x,]")] := by
  refine ⟨rfl, ?_⟩
  intro h
  have h1 : safeJsonParse "\x7b\"a\": \"x,]\"\x7d" "T" =
      Json.obj [("a", Json.str "x]")] := rfl
  rw [h1] at h
  simp at h

/-- C7 (amended): for well-formed (possibly fenced) JSON text on which the
five repair transformations act as the identity, `safeJsonParse` returns
exactly the encoded value; the round-trip can fail only when a repair
rewrites the already-valid text (e.g. a comma before a bracket inside a
string literal). -/
theorem c7_roundtrip (s topic : String) (v : Json)
    (hparse : parseJson (extractJsonFromText s) = some v)
    (hfix : repairChain (extractJsonFromText s) = extractJsonFromText s) :
    safeJsonParse s topic = v := by
  unfold safeJsonParse
  rw [hfix, hparse]

set_option maxHeartbeats 1600000 in
/-- C7 (witness): the round-trip theorem applied to a fenced well-formed
payload. -/
theorem c7_roundtrip_witness :
    safeJsonParse "```json\n\x7b\"a\": 1\x7d\n```" "T" =
      Json.obj [("a", Json.num 1 0)] :=
  c7_roundtrip "```json\n\x7b\"a\": 1\x7d\n```" "T"
    (Json.obj [("a", Json.num 1 0)]) (by rfl) (by rfl)

/-- C8 (counterexample): when the model call fails (`none`) or returns
empty text (`some ""`), `generateLectureOutline` does not run the
heuristic reconstruction — it surfaces
`'Failed to generate lecture outline'` to the caller. -/
theorem c8_counterexample :
    generateLectureOutline none "T" "ctx" =
        .error "Failed to generate lecture outline" ∧
      generateLectureOutline (some "") "T" "ctx" =
        .error "Failed to generate lecture outline" :=
  ⟨rfl, rfl⟩

/-- C8 (amended): for every title and context, a failed model call and an
empty response text both make `generateLectureOutline` surface the error
`'Failed to generate lecture outline'`; the heuristic fallback runs only
for nonempty unparseable responses. -/
theorem c8_upstream_failure_surfaces_error (title context : String) :
    generateLectureOutline none title context =
        .error "Failed to generate lecture outline" ∧
      generateLectureOutline (some "") title context =
        .error "Failed to generate lecture outline" :=
  ⟨rfl, rfl⟩

/-- C3: `linkResourceToContent` is atomic — if either identifier fails to
resolve the call errors, and every error outcome (including an injected
save failure partway through) publishes the pre-call store: the
back-reference write and the identifier-list append commit together or not
at all. -/
theorem c3_link_atomic (st : Store) (rid cid : String) (lt : LinkType)
    (fR fC : Bool) :
    ((lookupResource st rid = none ∨ lookupContent st cid = none) →
        isErr (linkResourceToContent st rid cid lt fR fC).1 = true) ∧
      (isErr (linkResourceToContent st rid cid lt fR fC).1 = true →
        (linkResourceToContent st rid cid lt fR fC).2 = st) ∧
      (fR = false → isErr (linkResourceToContent st rid cid lt fR fC).1 = true) ∧
      (fC = false → ∀ c, lookupContent st cid = some c → rid ∉ c.resources →
        isErr (linkResourceToContent st rid cid lt fR fC).1 = true) := by
  unfold linkResourceToContent
  by_cases hv : (isValidObjectId rid : Prop) ∧ (isValidObjectId cid : Prop)
  · rw [if_neg (not_not_intro hv)]
    cases hr : lookupResource st rid with
    | none => simp [isErr]
    | some resource =>
      cases hc : lookupContent st cid with
      | none => simp [isErr]
      | some content =>
        refine ⟨?_, ?_, ?_, ?_⟩
        · intro hn
          rcases hn with hn | hn <;> cases hn
        · cases fR with
          | false => intro _; rfl
          | true =>
            by_cases hcont : rid ∈ content.resources
            · simp [hcont, isErr]
            · cases fC with
              | false => simp [hcont, isErr]
              | true => simp [hcont, isErr]
        · cases fR with
          | false => intro _; simp [isErr]
          | true => intro h; cases h
        · cases fC with
          | true => intro h; cases h
          | false =>
            intro _ c hc' hnot
            injection hc' with hcc
            subst hcc
            cases fR with
            | false => simp [isErr]
            | true => simp [isErr, hnot]
  · rw [if_pos hv]
    exact ⟨fun _ => rfl, fun _ => rfl, fun _ => rfl, fun _ _ _ _ => rfl⟩

/-- C3 (witness): linking two well-formed but unresolvable identifiers in
the empty store errors and leaves the store untouched. -/
theorem c3_link_atomic_witness :
    isErr (linkResourceToContent ⟨[], []⟩ "aaaaaaaaaaaaaaaaaaaaaaaa"
        "bbbbbbbbbbbbbbbbbbbbbbbb" .primary true true).1 = true ∧
      (linkResourceToContent ⟨[], []⟩ "aaaaaaaaaaaaaaaaaaaaaaaa"
        "bbbbbbbbbbbbbbbbbbbbbbbb" .primary true true).2 = ⟨[], []⟩ := by
  have h := c3_link_atomic ⟨[], []⟩ "aaaaaaaaaaaaaaaaaaaaaaaa"
    "bbbbbbbbbbbbbbbbbbbbbbbb" .primary true true
  exact ⟨h.1 (Or.inl rfl), h.2.1 (h.1 (Or.inl rfl))⟩

/-! ### C4: the version ledger -/

/-- Iterate `createVersion` over a list of call arguments
`(userId, updates, changeDescription, now)`, threading the store. -/
def runCreates (st : Store) (cid : String) :
    List (String × VersionUpdates × List String × Int) → Store
  | [] => st
  | (uid, u, ch, now) :: rest =>
    runCreates (createVersion st cid uid u ch now).2 cid rest

theorem find?_map_update (l : List (String × ContentRec)) (cid : String)
    (c : ContentRec) (h : (l.find? (·.1 = cid)).isSome) :
    (l.map (fun p => if p.1 = cid then (p.1, c) else p)).find? (·.1 = cid) =
      some (cid, c) := by
  induction l with
  | nil => simp at h
  | cons p r ih =>
    by_cases hp : p.1 = cid
    · simp [hp]
    · rw [List.find?_cons_of_neg _ (by simp [hp])] at h
      rw [List.map_cons]
      have hhead : (if p.1 = cid then (p.1, c) else p) = p := if_neg hp
      rw [hhead, List.find?_cons_of_neg _ (by simp [hp])]
      exact ih h

theorem lookupContent_update (st : Store) (cid : String) (c c₀ : ContentRec)
    (h : lookupContent st cid = some c₀) :
    lookupContent (updateContent st cid c) cid = some c := by
  unfold lookupContent updateContent
  rw [find?_map_update]
  · rfl
  · unfold lookupContent at h
    cases hf : st.contents.find? (·.1 = cid) with
    | none => rw [hf] at h; cases h
    | some p => simp [hf]

theorem createVersion_ok (st : Store) (cid uid : String) (u : VersionUpdates)
    (ch : List String) (now : Int) (c : ContentRec)
    (hcid : isValidObjectId cid = true) (huid : isValidObjectId uid = true)
    (hc : lookupContent st cid = some c) :
    ∃ c', (createVersion st cid uid u ch now).2 = updateContent st cid c' ∧
      c'.versions = c.versions ++
        [{ versionNumber := c.versions.length + 1
           content :=
             { title := jsOrStr u.title c.title
               description := jsOrStr u.description c.description
               resources := jsOrList u.resources c.resources
               syllabusData := jsOrOptStr u.syllabusData c.syllabusData }
           changes := ch
           createdAt := now
           createdBy := uid }] ∧
      c'.currentVersion = c.versions.length + 1 := by
  refine ⟨{ c with
    versions := c.versions ++
      [{ versionNumber := c.versions.length + 1
         content :=
           { title := jsOrStr u.title c.title
             description := jsOrStr u.description c.description
             resources := jsOrList u.resources c.resources
             syllabusData := jsOrOptStr u.syllabusData c.syllabusData }
         changes := ch
         createdAt := now
         createdBy := uid }]
    currentVersion := c.versions.length + 1
    title := jsOrStr u.title c.title
    description := jsOrStr u.description c.description
    resources := jsOrList u.resources c.resources
    syllabusData := jsOrOptStr u.syllabusData c.syllabusData }, ?_, rfl, rfl⟩
  unfold createVersion
  rw [if_neg (by simp [hcid]), hc]
  simp [huid]

theorem runCreates_ledger (cid : String) (hcid : isValidObjectId cid = true) :
    ∀ (args : List (String × VersionUpdates × List String × Int))
      (st : Store) (c : ContentRec),
      (∀ a ∈ args, isValidObjectId a.1 = true) →
      lookupContent st cid = some c →
      ∃ c', lookupContent (runCreates st cid args) cid = some c' ∧
        c'.versions.map (·.versionNumber) =
          c.versions.map (·.versionNumber) ++
            List.range' (c.versions.length + 1) args.length ∧
        c'.versions.length = c.versions.length + args.length ∧
        c'.currentVersion =
          (if args.isEmpty then c.currentVersion
           else c.versions.length + args.length) := by
  intro args
  induction args with
  | nil =>
    intro st c _ hc
    exact ⟨c, hc, by simp, by simp, by simp⟩
  | cons a rest ih =>
    intro st c hall hc
    obtain ⟨uid, u, ch, now⟩ := a
    have huid : isValidObjectId uid = true := hall _ (List.mem_cons_self _ _)
    obtain ⟨c₁, hst, hvers, hcur⟩ :=
      createVersion_ok st cid uid u ch now c hcid huid hc
    have hlook : lookupContent (createVersion st cid uid u ch now).2 cid = some c₁ := by
      rw [hst]; exact lookupContent_update st cid c₁ c hc
    obtain ⟨c', hc', hmap, hlen, hcur'⟩ :=
      ih (createVersion st cid uid u ch now).2 c₁
        (fun a ha => hall _ (List.mem_cons_of_mem _ ha)) hlook
    refine ⟨c', ?_, ?_, ?_, ?_⟩
    · simpa [runCreates] using hc'
    · rw [hmap, hvers]
      simp only [List.map_append, List.map_cons, List.map_nil,
        List.length_append, List.length_cons, List.length_nil,
        List.append_assoc, List.singleton_append, List.length_cons]
      rw [List.range'_succ]
    · rw [hlen, hvers]
      simp only [List.length_append, List.length_cons, List.length_nil]
      omega
    · rw [hcur']
      simp only [List.isEmpty_cons, List.length_cons]
      cases rest with
      | nil => simpa using hcur
      | cons b l =>
        simp only [List.isEmpty_cons, Bool.false_eq_true, if_false, hvers,
          List.length_append, List.length_cons, List.length_nil]
        omega

/-- C4: starting from a fresh Content (empty ledger), `k ≥ 1` successful
`createVersion` calls append exactly `k` versions numbered `1..k` in
order, and the `currentVersion` pointer equals `k` after the `k`-th call
(published by the same single save as the append). -/
theorem c4_version_numbers (st : Store) (cid : String) (c : ContentRec)
    (args : List (String × VersionUpdates × List String × Int))
    (hcid : isValidObjectId cid = true)
    (hall : ∀ a ∈ args, isValidObjectId a.1 = true)
    (hc : lookupContent st cid = some c)
    (hfresh : c.versions = [])
    (hk : args ≠ []) :
    ∃ c', lookupContent (runCreates st cid args) cid = some c' ∧
      c'.versions.map (·.versionNumber) = List.range' 1 args.length ∧
      c'.versions.length = args.length ∧
      c'.currentVersion = args.length := by
  obtain ⟨c', h₁, h₂, h₃, h₄⟩ := runCreates_ledger cid hcid args st c hall hc
  refine ⟨c', h₁, ?_, ?_, ?_⟩
  · rw [h₂, hfresh]; simp
  · rw [h₃, hfresh]; simp
  · rw [h₄, hfresh]
    cases args with
    | nil => exact absurd rfl hk
    | cons _ _ => simp

/-- C4 (witness): two `createVersion` calls on a fresh Content yield
version numbers `[1, 2]` and `currentVersion = 2`. -/
theorem c4_version_numbers_witness :
    ∃ c', lookupContent
        (runCreates
          ⟨[], [("bbbbbbbbbbbbbbbbbbbbbbbb",
            { title := "t", description := "d", resources := [],
              syllabusData := none, versions := [], currentVersion := 0 })]⟩
          "bbbbbbbbbbbbbbbbbbbbbbbb"
          [("aaaaaaaaaaaaaaaaaaaaaaaa",
            { title := none, description := none, resources := none,
              syllabusData := none }, ["c1"], 5),
           ("aaaaaaaaaaaaaaaaaaaaaaaa",
            { title := some "t2", description := none, resources := none,
              syllabusData := none }, ["c2"], 6)])
        "bbbbbbbbbbbbbbbbbbbbbbbb" = some c' ∧
      c'.versions.map (·.versionNumber) = List.range' 1 2 ∧
      c'.versions.length = 2 ∧
      c'.currentVersion = 2 :=
  c4_version_numbers _ _ _ _ (by decide) (by decide) rfl rfl (by decide)

/-! ### C5: TTL reads -/

/-- C5 (counterexample): a read of an expired fingerprint returns absent,
but — contrary to the claim — the expired entry is not removed: the source
`getCachedResult` performs no mutation, so the cache still holds the
expired entry after the access. -/
theorem c5_counterexample :
    (getCachedResult [{ key := "t|q|all|10", resources := [], timestamp := 0 }]
        { query := "q", topics := ["t"], rtype := none, limit := none,
          syllabusText := none, useRealUrls := false } 300001).1 = none ∧
      (getCachedResult [{ key := "t|q|all|10", resources := [], timestamp := 0 }]
        { query := "q", topics := ["t"], rtype := none, limit := none,
          syllabusText := none, useRealUrls := false } 300001).2.1 =
      [{ key := "t|q|all|10", resources := [], timestamp := 0 }] :=
  ⟨rfl, rfl⟩

/-- C5 (amended): once every entry under the fingerprint has age at least
the TTL, `get` returns absent rather than the expired data — but the
expired entry is not purged on access: the cache is returned unchanged,
and the entry disappears only when displaced by a same-key `put` or by
size eviction. -/
theorem c5_expired_read_absent (cache : List CacheEntry) (p : SearchParams)
    (now : Int)
    (h : ∀ e ∈ cache, e.key = (generateCacheKey p).1 →
      ¬ (now - e.timestamp < CACHE_EXPIRY)) :
    getCachedResult cache p now = (none, cache, (generateCacheKey p).2) := by
  unfold getCachedResult
  cases hf : cache.find? (·.key = (generateCacheKey p).1) with
  | none => rfl
  | some e =>
    have hmem : e ∈ cache := List.mem_of_find?_eq_some hf
    have hkey : e.key = (generateCacheKey p).1 := by
      have := List.find?_some hf
      simpa using this
    dsimp only
    rw [if_neg (h e hmem hkey)]

/-- C5 (witness): the amended theorem applied to a one-entry cache read
exactly at the TTL boundary. -/
theorem c5_expired_read_absent_witness :
    getCachedResult [{ key := "t|q|all|10", resources := [], timestamp := 0 }]
        { query := "q", topics := ["t"], rtype := none, limit := none,
          syllabusText := none, useRealUrls := false } 300000 =
      (none, [{ key := "t|q|all|10", resources := [], timestamp := 0 }],
        { query := "q", topics := ["t"], rtype := none, limit := none,
          syllabusText := none, useRealUrls := false }) :=
  c5_expired_read_absent _ _ _ (by decide)

/-! ### C9: the `useRealUrls` read path -/

/-- Concrete data for the C9 scenario: a caller that demands real URLs and
a fresh cached entry whose first resource already has a real URL. -/
def c9Params : SearchParams :=
  { query := "q", topics := ["t"], rtype := none, limit := none,
    syllabusText := none, useRealUrls := true }

def c9CachedResource : Resource :=
  { id := "r1", title := "cached", description := "d",
    url := "https://www.geeksforgeeks.org/x", rtype := "article",
    source := "GeeksforGeeks" }

def c9Entry : CacheEntry :=
  { key := "t|q|all|10", resources := [c9CachedResource], timestamp := 0 }

def c9Ai : Resource :=
  { id := "a1", title := "ai", description := "d", url := "https://a",
    rtype := "article", source := "s" }

def c9Mock : Resource :=
  { id := "m1", title := "mock", description := "d", url := "https://m",
    rtype := "article", source := "s" }

/-- C9 (counterexample): with `useRealUrls` set and a fresh cached entry
whose first resource URL does not contain `example.com`, `findResources`
serves the cached result — the flag does not force a miss.  The returned
list is the cached one: it differs from both the AI and the mock lists
supplied for this call. -/
theorem c9_counterexample :
    (findResources c9Params [c9Entry] 1000 [c9Ai] [c9Mock]).1 =
        .ok [c9CachedResource] ∧
      c9CachedResource ≠ c9Ai ∧ c9CachedResource ≠ c9Mock :=
  ⟨rfl, by decide, by decide⟩

/-- C9 (amended): with `useRealUrls` set, a fresh cached entry is bypassed
only when its first resource URL contains `example.com` (a placeholder);
when the first cached URL is real, the cached result is returned even
though the caller requested real URLs. -/
theorem c9_bypass_only_for_placeholder (cache : List CacheEntry)
    (p : SearchParams) (now : Int) (ai mock : List Resource)
    (r : Resource) (rest : List Resource)
    (huse : p.useRealUrls = true)
    (hcached : (getCachedResult cache p now).1 = some (r :: rest))
    (hurl : containsSub "example.com".data r.url.data = false) :
    (findResources p cache now ai mock).1 = .ok (r :: rest) := by
  unfold findResources
  rw [hcached, huse]
  simp [hurl]

/-- C9 (witness): the amended theorem applied to the concrete fresh cache
entry with a real URL. -/
theorem c9_bypass_only_for_placeholder_witness :
    (findResources c9Params [c9Entry] 1000 [] []).1 = .ok [c9CachedResource] :=
  c9_bypass_only_for_placeholder _ _ _ _ _ _ _ rfl rfl (by decide)

/-! ### C10: the in-place sort of the caller's topics array -/

theorem insertionSort_strLe_idem (l : List String) :
    List.insertionSort strLe (List.insertionSort strLe l) =
      List.insertionSort strLe l :=
  List.eq_of_perm_of_sorted (List.perm_insertionSort strLe _)
    (List.sorted_insertionSort strLe _) (List.sorted_insertionSort strLe _)

theorem generateCacheKey_idem (p : SearchParams) :
    generateCacheKey (generateCacheKey p).2 =
      ((generateCacheKey (generateCacheKey p).2).1, (generateCacheKey p).2) := by
  unfold generateCacheKey
  simp [insertionSort_strLe_idem]

theorem getCachedResult_params (cache : List CacheEntry) (p : SearchParams)
    (now : Int) : (getCachedResult cache p now).2.2 = (generateCacheKey p).2 := by
  unfold getCachedResult
  cases cache.find? (·.key = (generateCacheKey p).1) with
  | none => rfl
  | some e =>
    dsimp only
    by_cases hfresh : now - e.timestamp < CACHE_EXPIRY
    · rw [if_pos hfresh]
    · rw [if_neg hfresh]

theorem cacheResult_params (cache : List CacheEntry) (p : SearchParams)
    (res : List Resource) (now : Int) :
    (cacheResult cache p res now).2 = (generateCacheKey p).2 := by
  unfold cacheResult
  dsimp only
  split
  · rfl
  · rfl

theorem findResources_params (p : SearchParams) (cache : List CacheEntry)
    (now : Int) (ai mock : List Resource) :
    (findResources p cache now ai mock).2.2 = (generateCacheKey p).2 := by
  have hg := getCachedResult_params cache p now
  have hca : (cacheResult (getCachedResult cache p now).2.1
      (getCachedResult cache p now).2.2 ai now).2 = (generateCacheKey p).2 := by
    rw [cacheResult_params, hg, generateCacheKey_idem]
  have hcm : (cacheResult (getCachedResult cache p now).2.1
      (getCachedResult cache p now).2.2 mock now).2 = (generateCacheKey p).2 := by
    rw [cacheResult_params, hg, generateCacheKey_idem]
  unfold findResources
  cases (getCachedResult cache p now).1 with
  | none =>
    by_cases hts : hasTopicsAndSyllabus p ∧ ai ≠ []
    · simpa [hts] using hca
    · simpa [hts] using hcm
  | some cr =>
    by_cases huse : p.useRealUrls = true
    · cases cr with
      | nil => simpa [huse] using hg
      | cons r₀ rest =>
        by_cases hurl : containsSub "example.com".data r₀.url.data = true
        · by_cases hts : hasTopicsAndSyllabus p ∧ ai ≠ []
          · simpa [huse, hurl, hts] using hca
          · simpa [huse, hurl, hts] using hcm
        · simpa [huse, hurl] using hg
    · simp only [Bool.not_eq_true] at huse
      simpa [huse] using hg

/-- C10: every `findResources` call — including a pure cache hit — leaves
the caller's `topics` array sorted in place: after the call the topics are
the stable sort of the originals (a permutation, in sorted order), because
`generateCacheKey` calls `topics.sort()` on the caller's array while
fingerprinting. -/
theorem c10_topics_sorted_in_place (p : SearchParams) (cache : List CacheEntry)
    (now : Int) (ai mock : List Resource) :
    (findResources p cache now ai mock).2.2.topics =
        List.insertionSort strLe p.topics ∧
      List.Sorted strLe (findResources p cache now ai mock).2.2.topics ∧
      (findResources p cache now ai mock).2.2.topics.Perm p.topics := by
  have h : (findResources p cache now ai mock).2.2.topics =
      List.insertionSort strLe p.topics := by
    rw [findResources_params]
    rfl
  refine ⟨h, ?_, ?_⟩
  · rw [h]; exact List.sorted_insertionSort strLe _
  · rw [h]; exact List.perm_insertionSort strLe _

/-! ### C6: `put` invariants -/

theorem sorted_take_le_drop {l : List CacheEntry} (h : List.Sorted tsLe l)
    (n : Nat) : ∀ x ∈ l.take n, ∀ y ∈ l.drop n, tsLe x y := by
  have h' : List.Pairwise tsLe (l.take n ++ l.drop n) := by
    rw [List.take_append_drop]; exact h
  exact (List.pairwise_append.mp h').2.2

/-- Proof-support name for the filter-and-push list built inside
`cacheResult` (lines 83-86 of the source). -/
def pushedOf (cache : List CacheEntry) (key : String) (res : List Resource)
    (now : Int) : List CacheEntry :=
  cache.filter (·.key ≠ key) ++ [{ key := key, resources := res, timestamp := now }]

/-- Proof-support name for the overflow eviction of `cacheResult`
(lines 89-92 of the source): stable-sort by timestamp and keep the last
`MAX_CACHE_SIZE` entries. -/
def evictOf (l : List CacheEntry) : List CacheEntry :=
  if l.length > MAX_CACHE_SIZE then
    (List.insertionSort tsLe l).drop
      ((List.insertionSort tsLe l).length - MAX_CACHE_SIZE)
  else l

/-- The value component of `cacheResult` is exactly push-then-evict. -/
theorem cacheResult_fst (cache : List CacheEntry) (p : SearchParams)
    (res : List Resource) (now : Int) :
    (cacheResult cache p res now).1 =
      evictOf (pushedOf cache (generateCacheKey p).1 res now) := by
  unfold cacheResult evictOf pushedOf
  dsimp only
  split <;> rfl

theorem evict_nodup_keys (l : List CacheEntry) (h : (l.map (·.key)).Nodup) :
    ((evictOf l).map (·.key)).Nodup := by
  unfold evictOf
  split
  · have hperm : List.Perm ((List.insertionSort tsLe l).map (·.key))
        (l.map (·.key)) :=
      (List.perm_insertionSort tsLe l).map _
    have hs : ((List.insertionSort tsLe l).map (·.key)).Nodup :=
      hperm.nodup_iff.mpr h
    exact hs.sublist ((List.drop_sublist _ _).map _)
  · exact h

theorem evict_length_le (l : List CacheEntry) :
    (evictOf l).length ≤ MAX_CACHE_SIZE := by
  unfold evictOf
  split
  · rw [List.length_drop]; omega
  · omega

theorem evict_drops_oldest (l : List CacheEntry) (e : CacheEntry)
    (he : e ∈ l) (hout : e ∉ evictOf l) :
    ∀ e' ∈ evictOf l, e.timestamp ≤ e'.timestamp := by
  unfold evictOf at hout ⊢
  by_cases hlen : l.length > MAX_CACHE_SIZE
  · rw [if_pos hlen] at hout ⊢
    have hes : e ∈ List.insertionSort tsLe l :=
      ((List.perm_insertionSort tsLe l).mem_iff).mpr he
    have hsplit : e ∈ (List.insertionSort tsLe l).take
          ((List.insertionSort tsLe l).length - MAX_CACHE_SIZE) ++
        (List.insertionSort tsLe l).drop
          ((List.insertionSort tsLe l).length - MAX_CACHE_SIZE) := by
      rw [List.take_append_drop]; exact hes
    rcases List.mem_append.mp hsplit with htake | hdrop
    · intro e' he'
      exact sorted_take_le_drop (List.sorted_insertionSort tsLe l) _ e htake e' he'
    · exact absurd hdrop hout
  · rw [if_neg hlen] at hout
    exact absurd he hout

theorem pushed_nodup_keys (cache : List CacheEntry) (key : String)
    (res : List Resource) (now : Int) (h : (cache.map (·.key)).Nodup) :
    ((pushedOf cache key res now).map (·.key)).Nodup := by
  unfold pushedOf
  rw [List.map_append]
  rw [List.nodup_append]
  refine ⟨?_, List.nodup_singleton _, ?_⟩
  · exact h.sublist ((List.filter_sublist _).map _)
  · intro a ha
    simp only [List.mem_map] at ha
    obtain ⟨x, hx, rfl⟩ := ha
    have := (List.mem_filter.mp hx).2
    simp only [decide_eq_true_eq] at this
    simpa using this

/-- Parameters for the `i`-th probe insertion of the C6 overflow
scenario. -/
def c6Probe (i : Nat) : SearchParams :=
  { query := toString i, topics := [], rtype := none, limit := none,
    syllabusText := none, useRealUrls := false }

set_option maxRecDepth 20000 in
set_option maxHeartbeats 1600000 in
/-- C6: after every `put` on a cache whose keys are duplicate-free, the
keys stay duplicate-free (at most one entry per fingerprint), the size
stays within `MAX_CACHE_SIZE`, and any entry evicted by overflow (rather
than replaced under its own key) is no newer than every surviving entry —
the least-recently-created entries go first.  Concretely, inserting 21
distinct entries into the empty cache bounded at 20 leaves exactly the 20
most recent, in insertion order. -/
theorem c6_put_invariants :
    (∀ (cache : List CacheEntry) (p : SearchParams) (res : List Resource)
      (now : Int), (cache.map (·.key)).Nodup →
      (((cacheResult cache p res now).1.map (·.key)).Nodup ∧
        (cacheResult cache p res now).1.length ≤ MAX_CACHE_SIZE ∧
        ∀ e ∈ cache, e.key ≠ (generateCacheKey p).1 →
          e ∉ (cacheResult cache p res now).1 →
          ∀ e' ∈ (cacheResult cache p res now).1,
            e.timestamp ≤ e'.timestamp)) ∧
    ((List.range 21).foldl
        (fun c i => (cacheResult c (c6Probe i) [] (i : Int)).1) []).map
      (·.key) =
      (List.range 20).map (fun i => "|" ++ toString (i + 1) ++ "|all|10") := by
  constructor
  · intro cache p res now hnodup
    have hpush := pushed_nodup_keys cache (generateCacheKey p).1 res now hnodup
    refine ⟨?_, ?_, ?_⟩
    · rw [cacheResult_fst]
      exact evict_nodup_keys _ hpush
    · rw [cacheResult_fst]
      exact evict_length_le _
    · intro e he hkey hout e' he'
      rw [cacheResult_fst] at hout he'
      have hmem : e ∈ pushedOf cache (generateCacheKey p).1 res now := by
        unfold pushedOf
        exact List.mem_append_left _ (List.mem_filter.mpr ⟨he, by simpa using hkey⟩)
      exact evict_drops_oldest _ e hmem hout e' he'
  · decide

/-- C6 (witness): the invariant half applied to a `put` on the empty
cache. -/
theorem c6_put_invariants_witness :
    ((cacheResult [] (c6Probe 0) [] 0).1.map (·.key)).Nodup ∧
      (cacheResult [] (c6Probe 0) [] 0).1.length ≤ MAX_CACHE_SIZE ∧
      ∀ e ∈ ([] : List CacheEntry), e.key ≠ (generateCacheKey (c6Probe 0)).1 →
        e ∉ (cacheResult [] (c6Probe 0) [] 0).1 →
        ∀ e' ∈ (cacheResult [] (c6Probe 0) [] 0).1,
          e.timestamp ≤ e'.timestamp :=
  c6_put_invariants.1 [] (c6Probe 0) [] 0 (by decide)

end Teachify
